import Mathlib

/-!
# Verification of the itemku order-fulfillment engine

A shallow embedding in Lean 4 of the order-fulfillment engine implemented in
`src/main.py` (class `ItemkuMonitor`), together with proofs of the testable
properties of its specification.

Embedding conventions:
* Python integers are `Int`; millisecond timestamps are `Int`.
* Python dicts read from the external stores become Lean structures; an entry
  of a Firebase list that is not a dict (skipped by the code with an
  `isinstance` check) is a `none` in a `List (Option Account)`.
* External effects (the Firebase reads and conditional updates, the HTTP
  responses of the order-source API, the regex engine, the hash function used
  by `hmac`, and `json.dumps`) enter the functions as explicit parameters, so
  every function here is pure and executable.
* Python string primitives (`str.strip`, `str.split(',')`, `str.lower`,
  substring containment) are re-implemented structurally over the character
  list of a `String`, since they must evaluate inside the kernel.
-/

namespace Itemku

/-! ## Python string primitives -/

/-- Python `str.strip()` with no argument: remove leading and trailing
whitespace. Implemented as drop-while on both ends of the character list. -/
def pyStrip (s : String) : String :=
  String.mk (((s.data.dropWhile Char.isWhitespace).reverse.dropWhile
    Char.isWhitespace).reverse)

/-- Helper for `pySplitComma`: accumulates the current chunk (reversed). -/
def splitCommaAux : List Char → List Char → List String
  | [], acc => [String.mk acc.reverse]
  | c :: rest, acc =>
    if c = ',' then String.mk acc.reverse :: splitCommaAux rest []
    else splitCommaAux rest (c :: acc)

/-- Python `str.split(',')`: split on every comma, keeping empty chunks;
the empty string yields `[""]`, exactly as in Python. -/
def pySplitComma (s : String) : List String := splitCommaAux s.data []

/-- Python `str.lower()` restricted to the character-wise case mapping. -/
def pyLower (s : String) : String := String.mk (s.data.map Char.toLower)

/-- Substring containment over character lists (Python `needle in haystack`). -/
def containsSub (haystack needle : List Char) : Bool :=
  match haystack with
  | [] => needle.isEmpty
  | _ :: rest => needle.isPrefixOf haystack || containsSub rest needle

/-! ## Data model of the inventory store

`src/main.py` reads `/Products/<product_id>` from Firebase; a product holds a
list `accounts`, each account a dict with fields `currentUser`, `maxUser`,
`expired_at`, `lastUsed` and the credential payload (`email`, `password`).
Missing numeric fields default to `0` via `dict.get`, which the structure
fields absorb. -/

structure Account where
  email : String
  password : String
  currentUser : Int
  maxUser : Int
  expired_at : Int
  lastUsed : Int
deriving Repr, DecidableEq

structure Product where
  accounts : List (Option Account)
deriving Repr, DecidableEq

/-- The `/Products` tree: product id to product record. -/
abbrev Store : Type := List (String × Product)

/-- Firebase read `ref.child(product_id).get()`. -/
def Store.get (s : Store) (product_id : String) : Option Product :=
  List.lookup product_id s

/-- `remaining = max_users - current_users` (source line 308). -/
def remaining (acc : Account) : Int := acc.maxUser - acc.currentUser

/-- Eligibility test of the source (line 311):
`expired_at >= current_time and remaining >= order_quantity`. -/
def eligibleB (current_time order_quantity : Int) (acc : Account) : Bool :=
  current_time ≤ acc.expired_at && order_quantity ≤ remaining acc

/-- The `for idx, acc in enumerate(accounts)` loop of `get_available_account`
(source lines 302-312): skip non-dict entries, keep `(idx, acc)` for the
eligible ones. The `remaining` component of the source tuple is recomputed
from the account where needed. -/
def collectAvailable (current_time order_quantity : Int) :
    Nat → List (Option Account) → List (Nat × Account)
  | _, [] => []
  | idx, none :: rest => collectAvailable current_time order_quantity (idx + 1) rest
  | idx, some acc :: rest =>
    if eligibleB current_time order_quantity acc then
      (idx, acc) :: collectAvailable current_time order_quantity (idx + 1) rest
    else
      collectAvailable current_time order_quantity (idx + 1) rest

/-- `available_accounts` as built by the source, with original indices. -/
def availableAccounts (accounts : List (Option Account))
    (current_time order_quantity : Int) : List (Nat × Account) :=
  collectAvailable current_time order_quantity 0 accounts

/-- Stable insertion into a list sorted by `remaining`: the inserted element
goes before every element of equal key, which together with `sortByRem`'s
recursion (earlier elements inserted last) makes the sort stable. -/
def insertByRem (x : Nat × Account) : List (Nat × Account) → List (Nat × Account)
  | [] => [x]
  | y :: ys =>
    if remaining x.2 ≤ remaining y.2 then x :: y :: ys else y :: insertByRem x ys

/-- `available_accounts.sort(key=lambda x: x[2])` (source line 317). Python
`list.sort` is a stable sort by the key, and a stable sort is extensionally
unique, so it is embedded as a stable insertion sort by `remaining`. -/
def sortByRem : List (Nat × Account) → List (Nat × Account)
  | [] => []
  | x :: xs => insertByRem x (sortByRem xs)

/-- Firebase write targeting `accounts/<idx>` with the partial update
`{currentUser: newCur, lastUsed: t}`: all other fields and all other indices
are untouched. -/
def setAccountFields : List (Option Account) → Nat → Int → Int → List (Option Account)
  | [], _, _, _ => []
  | o :: rest, 0, newCur, t =>
    (o.map fun a => { a with currentUser := newCur, lastUsed := t }) :: rest
  | o :: rest, n + 1, newCur, t => o :: setAccountFields rest n newCur t

/-- The store after the reservation update at `/<product_id>/accounts/<idx>`. -/
def Store.reserve (s : Store) (product_id : String) (idx : Nat)
    (newCur t : Int) : Store :=
  match s with
  | [] => []
  | (k, p) :: rest =>
    if k = product_id then
      (k, ⟨setAccountFields p.accounts idx newCur t⟩) :: rest
    else
      (k, p) :: Store.reserve rest product_id idx newCur t

/-- `get_available_account(product_id, order_quantity)` (source lines 288-342).

Parameters standing for the external world:
* `store` — the `/Products` tree at the time of the read;
* `current_time` — `int(time.time() * 1000)` of line 300;
* `upd_time` — `int(time.time() * 1000)` of line 325 (a second clock read);
* `updateOutcome` — outcome of the Firebase `update` call of lines 323-331:
  `none` when the update returns `None` (success), `some msg` when it raises
  or returns non-`None`, in which case the inner handler returns the error
  string `"Account update failed: " ++ msg` and the store is unchanged.

Returns the Python pair `(account, error)` together with the store after the
call. -/
def get_available_account (store : Store) (product_id : String)
    (order_quantity : Int) (current_time upd_time : Int)
    (updateOutcome : Option String) :
    (Option Account × Option String) × Store :=
  match Store.get store product_id with
  | none => ((none, some "Product not found"), store)
  | some product_data =>
    let available_accounts :=
      availableAccounts product_data.accounts current_time order_quantity
    match sortByRem available_accounts with
    | [] => ((none, some "No available accounts"), store)
    | (idx, account) :: _ =>
      match updateOutcome with
      | some msg => ((none, some ("Account update failed: " ++ msg)), store)
      | none =>
        let new_current_user := account.currentUser + order_quantity
        ((some account, none),
          Store.reserve store product_id idx new_current_user upd_time)

/-! ## Manual delivery conversation

`handle_delivery_type` and `handle_manual_input` (source lines 76-149) drive
a per-order conversation keyed in the insertion-ordered dict
`self.manual_process`; an entry `{'type': t, 'inputs': [...]}` is modelled by
`ProcState`. External collaborators become parameters: `orderInfo` stands for
`get_order_info` (the `POST /order/detail` call, `none` for a falsy reply)
and `reMatch p v` for `re.match(p, v)` being truthy. Channel sends are
summarised in the returned effect value. -/

structure Field where
  field_name : String
  validation_pattern : Option String
deriving Repr, DecidableEq

structure OrderInfo where
  delivery_info_field : List Field
deriving Repr, DecidableEq

structure ProcState where
  type : Int
  inputs : List String
deriving Repr, DecidableEq

abbrev ManualMap : Type := List (String × ProcState)

/-- Python dict assignment `manual_process[key] = v`: replace in place when
the key exists, append otherwise. -/
def mapSet : ManualMap → String → ProcState → ManualMap
  | [], key, v => [(key, v)]
  | (k, w) :: rest, key, v =>
    if k = key then (k, v) :: rest else (k, w) :: mapSet rest key v

/-- Python dict lookup on the conversation map. -/
def mapGet (m : ManualMap) (key : String) : Option ProcState :=
  List.lookup key m

/-- An element of a `delivery_info` payload: a plain string, or the dict
built by mode 3 (modelled as the zipped association list). -/
inductive DeliveryItem where
  | str (s : String)
  | obj (fields : List (String × String))
deriving Repr, DecidableEq

/-- `validate_input(value, order_id, pattern=None)` (source lines 139-149).
The `order_id` argument only addresses the notification and is dropped.
`if pattern:` is Python truthiness, so a `None` or empty pattern skips the
regex check. -/
def validate_input (reMatch : String → String → Bool) (value : String)
    (pattern : Option String) : Bool :=
  if value = "" then false
  else
    match pattern with
    | none => true
    | some p => if p = "" then true else reMatch p value

/-- What a call to `handle_manual_input` did, beyond the returned map. -/
inductive ManualEffect where
  | ignored
  | rejected
  | submitted (order_id : String) (delivery_info : List DeliveryItem)
  | promptNext (field_name : String)
  | indexError
  | orderInfoMissing
  | noAction
deriving Repr, DecidableEq

/-- `handle_manual_input(message)` (source lines 100-137).

Routing (lines 101-103): `next((k for k, v in manual_process.items() if v),
None)` picks the first key whose state is truthy — every stored state is a
two-key dict, hence truthy, so this is the head entry; but `if not order_id`
then also drops a key that is itself the empty string. `submitted oid p`
records the call `process_order(oid, "DELIVER", p)`; `indexError` the
`fields[...]` IndexError; `orderInfoMissing` the AttributeError on a `None`
order detail; in both crash cases the map is unchanged. The `del` of a
completed conversation removes the routed (head) entry. -/
def handle_manual_input (orderInfo : String → Option OrderInfo)
    (reMatch : String → String → Bool) (manual_process : ManualMap)
    (text : String) : ManualMap × ManualEffect :=
  match manual_process with
  | [] => ([], .ignored)
  | (order_id, process_info) :: rest =>
    if order_id = "" then ((order_id, process_info) :: rest, .ignored)
    else
      let input_value := pyStrip text
      if process_info.type = 1 then
        if validate_input reMatch input_value none then
          (rest, .submitted order_id [.str input_value])
        else ((order_id, process_info) :: rest, .rejected)
      else if process_info.type = 2 then
        let values := (pySplitComma input_value).map pyStrip
        if values.all (fun v => validate_input reMatch v none) then
          (rest, .submitted order_id (values.map .str))
        else ((order_id, process_info) :: rest, .rejected)
      else if process_info.type = 3 then
        match orderInfo order_id with
        | none => ((order_id, process_info) :: rest, .orderInfoMissing)
        | some info =>
          let fields := info.delivery_info_field
          match fields.get? process_info.inputs.length with
          | none => ((order_id, process_info) :: rest, .indexError)
          | some current_field =>
            if validate_input reMatch input_value current_field.validation_pattern then
              let inputs' := process_info.inputs ++ [input_value]
              if inputs'.length = fields.length then
                (rest, .submitted order_id
                  [.obj (List.zip (fields.map Field.field_name) inputs')])
              else
                match fields.get? inputs'.length with
                | none =>
                  ((order_id, { process_info with inputs := inputs' }) :: rest,
                    .indexError)
                | some next_field =>
                  ((order_id, { process_info with inputs := inputs' }) :: rest,
                    .promptNext next_field.field_name)
            else ((order_id, process_info) :: rest, .rejected)
      else ((order_id, process_info) :: rest, .noAction)

/-- What a call to `handle_delivery_type` did, beyond the returned map. -/
inductive DeliveryTypeEffect where
  | orderNotFound
  | promptSingle
  | promptList
  | noFieldsDefined
  | promptField (field_name : String)
  | noPrompt
deriving Repr, DecidableEq

/-- `handle_delivery_type(order_id, type_num)` (source lines 76-98). The
conversation entry is created (line 82) before the mode-3 schema check
(lines 91-94), and the early `return` on an empty schema does not remove
it. `fields[0]` is total here because the empty case returned first. -/
def handle_delivery_type (orderInfo : String → Option OrderInfo)
    (manual_process : ManualMap) (order_id : String) (type_num : Int) :
    ManualMap × DeliveryTypeEffect :=
  match orderInfo order_id with
  | none => (manual_process, .orderNotFound)
  | some info =>
    let m1 := mapSet manual_process order_id ⟨type_num, []⟩
    if type_num = 1 then (m1, .promptSingle)
    else if type_num = 2 then (m1, .promptList)
    else if type_num = 3 then
      match info.delivery_info_field with
      | [] => (m1, .noFieldsDefined)
      | field :: _ => (m1, .promptField field.field_name)
    else (m1, .noPrompt)

/-! ## Order action submission and the fulfillment driver -/

/-- The JSON body posted to `POST /order/action` (source lines 260-266). -/
structure ActionRequest where
  order_id : String
  action : String
  delivery_info : Option (List DeliveryItem)
deriving Repr, DecidableEq

/-- The decoded JSON reply of the order-source action endpoint. -/
structure ActionResponse where
  success : Bool
  message : Option String
deriving Repr, DecidableEq

/-- The `/Orders/<order_id>` record written on a successful submission. -/
structure OrderRecord where
  status : String
  processed_at : Int
  delivery_info : Option (List DeliveryItem)
deriving Repr, DecidableEq

abbrev OrderStore : Type := List (String × OrderRecord)

def OrderStore.get (s : OrderStore) (order_id : String) : Option OrderRecord :=
  List.lookup order_id s

/-- Firebase `orders_ref.child(order_id).update({...})` with the full field
set of `OrderRecord`: insert or replace. -/
def OrderStore.set : OrderStore → String → OrderRecord → OrderStore
  | [], key, v => [(key, v)]
  | (k, w) :: rest, key, v =>
    if k = key then (k, v) :: rest else (k, w) :: OrderStore.set rest key v

/-- Python truthiness of the optional `delivery_info` list (line 265). -/
def listTruthy : Option (List DeliveryItem) → Bool
  | none => false
  | some l => !l.isEmpty

/-- `process_order(order_id, action, delivery_info=None)` (source lines
258-286). `resp` is the decoded HTTP reply; `Except.error e` stands for any
exception in the `try` block (caught at line 285, returning `(False,
str(e))`). `now_ms` is `int(time.time() * 1000)` of line 278. The built
request body is returned alongside, so theorems can speak about what was
submitted. -/
def process_order (orders_ref : OrderStore) (resp : Except String ActionResponse)
    (now_ms : Int) (order_id action : String)
    (delivery_info : Option (List DeliveryItem)) :
    (Bool × String) × OrderStore × ActionRequest :=
  let payload : ActionRequest :=
    if action = "DELIVER" && listTruthy delivery_info then
      ⟨order_id, action, delivery_info⟩
    else
      ⟨order_id, action, none⟩
  match resp with
  | .error e => ((false, e), orders_ref, payload)
  | .ok data =>
    if data.success then
      ((true, "Success"),
        OrderStore.set orders_ref order_id ⟨action, now_ms, delivery_info⟩,
        payload)
    else
      ((false, data.message.getD "Failed"), orders_ref, payload)

/-- Modelled from the spec: derivation of the delivery payload from the
allocated record (spec section 4.3 step 4: "email/identifier always
included; password/secret included unless the identifier contains a
case-insensitive substring marking it as a token- or invite-style
credential"). This step of the fulfillment driver is not present in
`src/main.py` (its `process_pending_orders` carries only the error branch);
the marker substrings are unspecified by the spec, so they enter as the
parameter `token_markers`. -/
def derive_delivery_payload (token_markers : List String) (account : Account) :
    List DeliveryItem :=
  if token_markers.any
      (fun m => containsSub (pyLower account.email).data (pyLower m).data) then
    [.str account.email]
  else
    [.str account.email, .str account.password]

/-- One order as read from the `POST /order/list` reply; only the fields the
driver branches on are kept (`product_name` and `price` merely format the
notification text). `order.get` defaults are absorbed into the option types
and `quantity`. -/
structure OrderData where
  status : String
  order_id : Option String
  product_id : Option String
  quantity : Int
deriving Repr, DecidableEq

/-- What processing one order did, beyond the store updates. -/
inductive DriverEffect where
  | notPending
  | skippedNoOrderId
  | skippedNoProductId
  | manualPrompt (order_id : String) (error : String)
  | delivered (request : ActionRequest) (ok : Bool) (msg : String)
  | noResult
deriving Repr, DecidableEq

/-- One iteration of the loop of `process_pending_orders` (source lines
214-256): skip non-pending orders and orders with a falsy id or product id,
call the allocator, and on error prompt for manual processing. The
allocation-success continuation is absent from `src/main.py`; it is
modelled from the spec (section 4.3 steps 4-5): derive the payload with
`derive_delivery_payload` and submit it through `process_order` with action
`DELIVER`. `noResult` is unreachable: the allocator always returns a record
or an error. -/
def process_pending_order (store : Store) (orders_ref : OrderStore)
    (token_markers : List String) (resp : Except String ActionResponse)
    (current_time upd_time now_ms : Int) (updateOutcome : Option String)
    (order : OrderData) : (Store × OrderStore) × DriverEffect :=
  if order.status ≠ "REQUIRE_PROCESS" then ((store, orders_ref), .notPending)
  else
    match order.order_id with
    | none => ((store, orders_ref), .skippedNoOrderId)
    | some order_id =>
      if order_id = "" then ((store, orders_ref), .skippedNoOrderId)
      else
        match order.product_id with
        | none => ((store, orders_ref), .skippedNoProductId)
        | some product_id =>
          if product_id = "" then ((store, orders_ref), .skippedNoProductId)
          else
            match get_available_account store product_id order.quantity
                current_time upd_time updateOutcome with
            | ((_, some error), store') =>
              ((store', orders_ref), .manualPrompt order_id error)
            | ((some account, none), store') =>
              let delivery_info := derive_delivery_payload token_markers account
              match process_order orders_ref resp now_ms order_id "DELIVER"
                  (some delivery_info) with
              | ((ok, msg), orders_ref', request) =>
                ((store', orders_ref'), .delivered request ok msg)
            | ((none, none), store') => ((store', orders_ref), .noResult)

/-! ## Signed request builder -/

/-- A JSON value, as passed to `json.dumps` for the token parts. -/
inductive Json where
  | str (s : String)
  | num (n : Int)
  | arr (elems : List Json)
  | obj (fields : List (String × Json))
deriving Repr

/-- UTF-8 encoding of one character (Python `str.encode()`), byte values as
naturals. -/
def utf8EncodeChar (c : Char) : List Nat :=
  let n := c.toNat
  if n < 0x80 then [n]
  else if n < 0x800 then [0xC0 + n / 0x40, 0x80 + n % 0x40]
  else if n < 0x10000 then
    [0xE0 + n / 0x1000, 0x80 + (n / 0x40) % 0x40, 0x80 + n % 0x40]
  else
    [0xF0 + n / 0x40000, 0x80 + (n / 0x1000) % 0x40,
      0x80 + (n / 0x40) % 0x40, 0x80 + n % 0x40]

/-- UTF-8 bytes of a string. -/
def utf8Bytes (s : String) : List Nat := (s.data.map utf8EncodeChar).flatten

/-- The URL-safe base64 alphabet of `base64.urlsafe_b64encode`. -/
def b64UrlChar (n : Nat) : Char :=
  if n < 26 then Char.ofNat (65 + n)
  else if n < 52 then Char.ofNat (97 + (n - 26))
  else if n < 62 then Char.ofNat (48 + (n - 52))
  else if n = 62 then '-'
  else '_'

/-- Base64 encoding grouped three bytes at a time, `'='`-padded. -/
def b64Groups : List Nat → List Char
  | b0 :: b1 :: b2 :: rest =>
    let w := b0 * 65536 + b1 * 256 + b2
    b64UrlChar (w / 262144) :: b64UrlChar (w / 4096 % 64) ::
      b64UrlChar (w / 64 % 64) :: b64UrlChar (w % 64) :: b64Groups rest
  | [b0, b1] =>
    let w := b0 * 65536 + b1 * 256
    [b64UrlChar (w / 262144), b64UrlChar (w / 4096 % 64),
      b64UrlChar (w / 64 % 64), '=']
  | [b0] =>
    let w := b0 * 65536
    [b64UrlChar (w / 262144), b64UrlChar (w / 4096 % 64), '=', '=']
  | [] => []

/-- `base64.urlsafe_b64encode` on a byte list, as a string. -/
def urlsafe_b64encode (bytes : List Nat) : String := String.mk (b64Groups bytes)

/-- `.rstrip(b'=')`: drop the base64 padding. -/
def rstripEq (s : String) : String :=
  String.mk ((s.data.reverse.dropWhile (fun c => c = '=')).reverse)

/-- The header dict of `generate_token` (source line 378). -/
def tokenHeader (api_key nonce : String) : Json :=
  Json.obj [("X-Api-Key", Json.str api_key), ("Nonce", Json.str nonce),
    ("alg", Json.str "HS256")]

/-- `generate_token(payload)` (source lines 376-383). The Python standard
library calls enter as parameters: `dumps` is `json.dumps` and `hmacSha256`
is `hmac.new(key, msg, hashlib.sha256).digest()` (key first, message
second). The nonce `str(int(time.time()))` is the `nonce` argument. -/
def generate_token (hmacSha256 : List Nat → List Nat → List Nat)
    (dumps : Json → String) (api_key api_secret : String)
    (payload : Json) (nonce : String) : String :=
  let header_encoded :=
    rstripEq (urlsafe_b64encode (utf8Bytes (dumps (tokenHeader api_key nonce))))
  let payload_encoded := rstripEq (urlsafe_b64encode (utf8Bytes (dumps payload)))
  let unsigned_token := header_encoded ++ "." ++ payload_encoded
  let signature := hmacSha256 (utf8Bytes api_secret) (utf8Bytes unsigned_token)
  unsigned_token ++ "." ++ rstripEq (urlsafe_b64encode signature)

/-- The first element of a list attaining the minimal `remaining`, kept for
reasoning about the head of the stable sort. -/
def firstMin : List (Nat × Account) → Option (Nat × Account)
  | [] => none
  | x :: xs =>
    match firstMin xs with
    | none => some x
    | some y => if remaining x.2 ≤ remaining y.2 then some x else some y

/-! ## Concrete fixtures used by the witness theorems -/

/-- Remaining capacity 2 at index 0 of `sampleStore`. -/
def accLoose : Account := ⟨"loose@x", "pl", 2, 4, 100, 0⟩

/-- Remaining capacity 1 at index 2 of `sampleStore`: the tightest fit. -/
def accTight : Account := ⟨"tight@x", "pt", 3, 4, 100, 0⟩

/-- Expired at 10, so ineligible at any read time past 10. -/
def accExpired : Account := ⟨"old@x", "po", 0, 4, 10, 0⟩

def sampleStore : Store :=
  [("p1", ⟨[some accLoose, none, some accTight]⟩), ("p2", ⟨[some accExpired]⟩)]

/-- `sampleStore` after reserving one lease on `accTight` at time 777. -/
def sampleStoreAfter : Store :=
  [("p1", ⟨[some accLoose, none, some ⟨"tight@x", "pt", 4, 4, 100, 777⟩]⟩),
   ("p2", ⟨[some accExpired]⟩)]

def sampleFields : List Field :=
  [⟨"email", none⟩, ⟨"code", some "^[0-9][0-9][0-9][0-9]$"⟩]

def sampleOrderInfo : String → Option OrderInfo := fun oid =>
  if oid = "ord1" then some ⟨sampleFields⟩
  else if oid = "ord2" then some ⟨[]⟩
  else none

/-- A concrete stand-in for the regex engine: the only pattern the fixtures
use matches exactly four digits. -/
def sampleMatch : String → String → Bool := fun p v =>
  if p = "^[0-9][0-9][0-9][0-9]$" then v.length = 4 && v.data.all Char.isDigit
  else true

def sampleOrder : OrderData := ⟨"REQUIRE_PROCESS", some "ord1", some "p1", 1⟩

def sampleHmac : List Nat → List Nat → List Nat := fun _ msg => msg.take 4

def sampleDumps : Json → String := fun _ => "J"

/-! ## Lemmas about the selection step of the allocator -/

theorem insertByRem_ne_nil (x : Nat × Account) (l : List (Nat × Account)) :
    insertByRem x l ≠ [] := by
  cases l with
  | nil => simp [insertByRem]
  | cons y ys =>
    simp only [insertByRem]
    split <;> simp

theorem head?_insertByRem (x : Nat × Account) (l : List (Nat × Account)) :
    (insertByRem x l).head? =
      some (match l.head? with
        | none => x
        | some y => if remaining x.2 ≤ remaining y.2 then x else y) := by
  cases l with
  | nil => simp [insertByRem]
  | cons y ys =>
    simp only [insertByRem, List.head?_cons]
    split <;> simp

theorem head?_sortByRem (l : List (Nat × Account)) :
    (sortByRem l).head? = firstMin l := by
  induction l with
  | nil => rfl
  | cons x xs ih =>
    rw [sortByRem, head?_insertByRem, firstMin, ← ih]
    cases h : (sortByRem xs).head? with
    | none => simp
    | some y => simp only; split <;> rfl

theorem firstMin_mem {l : List (Nat × Account)} {x : Nat × Account}
    (h : firstMin l = some x) : x ∈ l := by
  induction l with
  | nil => simp [firstMin] at h
  | cons z zs ih =>
    rw [firstMin] at h
    cases hz : firstMin zs with
    | none => rw [hz] at h; simp at h; simp [h]
    | some y =>
      rw [hz] at h
      simp only at h
      split at h
      · simp at h; simp [h]
      · simp at h; subst h; exact List.mem_cons_of_mem _ (ih hz)

theorem firstMin_cons_ne_none (z : Nat × Account) (zs : List (Nat × Account)) :
    firstMin (z :: zs) ≠ none := by
  rw [firstMin]
  cases firstMin zs with
  | none => simp
  | some y => simp only; split <;> simp

theorem firstMin_min {l : List (Nat × Account)} {x : Nat × Account}
    (h : firstMin l = some x) :
    ∀ y ∈ l, remaining x.2 ≤ remaining y.2 := by
  induction l generalizing x with
  | nil => simp [firstMin] at h
  | cons z zs ih =>
    rw [firstMin] at h
    cases hz : firstMin zs with
    | none =>
      rw [hz] at h; simp at h; subst h
      intro y hy
      rcases List.mem_cons.mp hy with rfl | hy'
      · exact le_refl _
      · exfalso
        cases zs with
        | nil => simp at hy'
        | cons w ws => exact firstMin_cons_ne_none w ws hz
    | some m =>
      rw [hz] at h
      simp only at h
      intro y hy
      have hm := ih hz
      rcases List.mem_cons.mp hy with rfl | hy'
      · split at h <;> simp at h <;> subst h
        · exact le_refl _
        · omega
      · split at h <;> simp at h <;> subst h
        · exact le_trans (by assumption) (hm y hy')
        · exact hm y hy'

theorem firstMin_earliest {l : List (Nat × Account)} {x : Nat × Account}
    (hpw : List.Pairwise (fun a b : Nat × Account => a.1 < b.1) l)
    (h : firstMin l = some x) :
    ∀ y ∈ l, remaining y.2 = remaining x.2 → x.1 ≤ y.1 := by
  induction l generalizing x with
  | nil => simp [firstMin] at h
  | cons z zs ih =>
    rw [firstMin] at h
    rw [List.pairwise_cons] at hpw
    cases hz : firstMin zs with
    | none =>
      rw [hz] at h; simp at h; subst h
      intro y hy _
      rcases List.mem_cons.mp hy with rfl | hy'
      · exact le_refl _
      · exact le_of_lt (hpw.1 y hy')
    | some m =>
      rw [hz] at h
      simp only at h
      intro y hy hrem
      rcases List.mem_cons.mp hy with rfl | hy'
      · split at h <;> simp at h <;> subst h
        · exact le_refl _
        · -- x = m, and remaining z.2 is strictly greater than remaining m.2,
          -- so a tie with z is impossible
          omega
      · split at h <;> simp at h <;> subst h
        · exact le_of_lt (hpw.1 y hy')
        · exact ih hpw.2 hz y hy' hrem

/-! ## Lemmas about the eligibility scan -/

theorem eligibleB_iff (t q : Int) (a : Account) :
    eligibleB t q a = true ↔ t ≤ a.expired_at ∧ q ≤ remaining a := by
  simp [eligibleB]

theorem mem_collectAvailable {t q : Int} {k : Nat} {l : List (Option Account)}
    {p : Nat × Account} (h : p ∈ collectAvailable t q k l) :
    ∃ i, l.get? i = some (some p.2) ∧ p.1 = k + i ∧ eligibleB t q p.2 = true := by
  induction l generalizing k with
  | nil => simp [collectAvailable] at h
  | cons o rest ih =>
    cases o with
    | none =>
      rw [collectAvailable] at h
      obtain ⟨i, hg, hk, he⟩ := ih h
      exact ⟨i + 1, by simpa using hg, by omega, he⟩
    | some acc =>
      rw [collectAvailable] at h
      split at h
      · rcases List.mem_cons.mp h with rfl | h'
        · exact ⟨0, by simp, by omega, by assumption⟩
        · obtain ⟨i, hg, hk, he⟩ := ih h'
          exact ⟨i + 1, by simpa using hg, by omega, he⟩
      · obtain ⟨i, hg, hk, he⟩ := ih h
        exact ⟨i + 1, by simpa using hg, by omega, he⟩

theorem collectAvailable_mem {t q : Int} {l : List (Option Account)}
    {b : Account} (k i : Nat) (hg : l.get? i = some (some b))
    (he : eligibleB t q b = true) :
    (k + i, b) ∈ collectAvailable t q k l := by
  induction l generalizing k i with
  | nil => simp at hg
  | cons o rest ih =>
    cases i with
    | zero =>
      rw [List.get?_cons_zero] at hg
      have ho : o = some b := by injection hg
      subst ho
      rw [collectAvailable, if_pos he]
      simp
    | succ j =>
      rw [List.get?_cons_succ] at hg
      cases o with
      | none =>
        rw [collectAvailable]
        have := ih (k + 1) j hg
        simpa [Nat.add_assoc, Nat.add_comm 1 j] using this
      | some acc =>
        rw [collectAvailable]
        have := ih (k + 1) j hg
        have hmem : (k + 1 + j, b) ∈ collectAvailable t q (k + 1) rest := this
        have harith : k + 1 + j = k + (j + 1) := by omega
        rw [harith] at hmem
        split
        · exact List.mem_cons_of_mem _ hmem
        · exact hmem

theorem collectAvailable_ge {t q : Int} {k : Nat} {l : List (Option Account)} :
    ∀ p ∈ collectAvailable t q k l, k ≤ p.1 := by
  induction l generalizing k with
  | nil => simp [collectAvailable]
  | cons o rest ih =>
    cases o with
    | none =>
      rw [collectAvailable]
      intro p hp
      have := ih p hp
      omega
    | some acc =>
      rw [collectAvailable]
      split
      · intro p hp
        rcases List.mem_cons.mp hp with rfl | hp'
        · exact le_refl _
        · have := ih p hp'
          omega
      · intro p hp
        have := ih p hp
        omega

theorem collectAvailable_pairwise (t q : Int) (k : Nat)
    (l : List (Option Account)) :
    List.Pairwise (fun a b : Nat × Account => a.1 < b.1)
      (collectAvailable t q k l) := by
  induction l generalizing k with
  | nil => simp [collectAvailable]
  | cons o rest ih =>
    cases o with
    | none => rw [collectAvailable]; exact ih (k + 1)
    | some acc =>
      rw [collectAvailable]
      split
      · refine List.Pairwise.cons ?_ (ih (k + 1))
        intro p hp
        have := collectAvailable_ge p hp
        omega
      · exact ih (k + 1)

theorem collectAvailable_eq_nil {t q : Int} {l : List (Option Account)}
    (h : ∀ i b, l.get? i = some (some b) → eligibleB t q b = false) :
    collectAvailable t q 0 l = [] := by
  cases hc : collectAvailable t q 0 l with
  | nil => rfl
  | cons p ps =>
    exfalso
    have hp : p ∈ collectAvailable t q 0 l := by rw [hc]; simp
    obtain ⟨i, hg, _, he⟩ := mem_collectAvailable hp
    have := h i p.2 hg
    rw [this] at he
    exact Bool.false_ne_true he

/-! ## Characterization of `get_available_account` -/

theorem get_available_account_not_found {store : Store} {pid : String}
    (q t u : Int) (uo : Option String) (h : Store.get store pid = none) :
    get_available_account store pid q t u uo =
      ((none, some "Product not found"), store) := by
  rw [get_available_account, h]

theorem get_available_account_no_avail {store : Store} {pid : String}
    {product : Product} (q t u : Int) (uo : Option String)
    (hp : Store.get store pid = some product)
    (h : ∀ i b, product.accounts.get? i = some (some b) →
      eligibleB t q b = false) :
    get_available_account store pid q t u uo =
      ((none, some "No available accounts"), store) := by
  rw [get_available_account, hp]
  simp only [availableAccounts, collectAvailable_eq_nil h, sortByRem]

theorem get_available_account_chosen {store : Store} {pid : String}
    {product : Product} {q t u : Int} {idx : Nat} {account : Account}
    (hp : Store.get store pid = some product)
    (hx : firstMin (availableAccounts product.accounts t q) =
      some (idx, account)) :
    ∀ uo : Option String,
      get_available_account store pid q t u uo =
        match uo with
        | some msg => ((none, some ("Account update failed: " ++ msg)), store)
        | none =>
          ((some account, none),
            Store.reserve store pid idx (account.currentUser + q) u) := by
  intro uo
  rw [get_available_account, hp]
  have hh : (sortByRem (availableAccounts product.accounts t q)).head? =
      some (idx, account) := by rw [head?_sortByRem]; exact hx
  cases hs : sortByRem (availableAccounts product.accounts t q) with
  | nil => rw [hs] at hh; simp at hh
  | cons y ys =>
    rw [hs] at hh
    simp at hh
    subst hh
    simp only [hs]

theorem get_available_account_success_inv {store store' : Store} {pid : String}
    {q t u : Int} {uo : Option String} {account : Account}
    (h : get_available_account store pid q t u uo =
      ((some account, none), store')) :
    ∃ product idx, Store.get store pid = some product ∧
      firstMin (availableAccounts product.accounts t q) =
        some (idx, account) ∧
      uo = none ∧
      store' = Store.reserve store pid idx (account.currentUser + q) u := by
  rw [get_available_account] at h
  cases hp : Store.get store pid with
  | none => rw [hp] at h; simp at h
  | some product =>
    rw [hp] at h
    simp only at h
    cases hs : sortByRem (availableAccounts product.accounts t q) with
    | nil => rw [hs] at h; simp at h
    | cons y ys =>
      rw [hs] at h
      cases uo with
      | some msg => simp at h
      | none =>
        simp at h
        obtain ⟨ha, hst⟩ := h
        refine ⟨product, y.1, rfl, ?_, rfl, ?_⟩
        · rw [← head?_sortByRem, hs, List.head?_cons, ← ha]
        · rw [← hst, ha]

/-! ## Frame lemmas for the reservation write -/

theorem setAccountFields_get_same (l : List (Option Account)) (idx : Nat)
    (nc t : Int) :
    (setAccountFields l idx nc t).get? idx =
      (l.get? idx).map (Option.map fun a =>
        { a with currentUser := nc, lastUsed := t }) := by
  induction l generalizing idx with
  | nil => simp [setAccountFields]
  | cons o rest ih =>
    cases idx with
    | zero => simp [setAccountFields]
    | succ j => simpa [setAccountFields] using ih j

theorem setAccountFields_get_other (l : List (Option Account)) (idx i : Nat)
    (nc t : Int) (h : i ≠ idx) :
    (setAccountFields l idx nc t).get? i = l.get? i := by
  induction l generalizing idx i with
  | nil => simp [setAccountFields]
  | cons o rest ih =>
    cases idx with
    | zero =>
      cases i with
      | zero => exact absurd rfl h
      | succ j => simp [setAccountFields]
    | succ k =>
      cases i with
      | zero => simp [setAccountFields]
      | succ j =>
        simpa [setAccountFields] using ih k j (fun hh => h (by rw [hh]))

theorem Store.get_reserve_same (s : Store) (pid : String) (idx : Nat)
    (nc t : Int) :
    Store.get (Store.reserve s pid idx nc t) pid =
      (Store.get s pid).map fun p =>
        ⟨setAccountFields p.accounts idx nc t⟩ := by
  induction s with
  | nil => rfl
  | cons e rest ih =>
    obtain ⟨k, p⟩ := e
    by_cases hk : k = pid
    · subst hk
      simp [Store.reserve, Store.get, List.lookup]
    · have hb : (pid == k) = false := by simp; exact fun hh => hk hh.symm
      simp only [Store.reserve, if_neg hk, Store.get, List.lookup, hb]
      exact ih

theorem Store.get_reserve_other (s : Store) (pid pid' : String) (idx : Nat)
    (nc t : Int) (h : pid' ≠ pid) :
    Store.get (Store.reserve s pid idx nc t) pid' = Store.get s pid' := by
  induction s with
  | nil => rfl
  | cons e rest ih =>
    obtain ⟨k, p⟩ := e
    by_cases hk : k = pid
    · have hb : (pid' == k) = false := by simp; exact fun hh => h (hh.trans hk)
      simp only [Store.reserve, if_pos hk, Store.get, List.lookup, hb]
    · by_cases hk' : pid' = k
      · have hb : (pid' == k) = true := by simp [hk']
        simp only [Store.reserve, if_neg hk, Store.get, List.lookup, hb]
      · have hb : (pid' == k) = false := by simp; exact hk'
        simp only [Store.reserve, if_neg hk, Store.get, List.lookup, hb]
        exact ih

/-! ## Claim theorems for the allocator -/

/-- C2: whenever the product's inventory holds at least one record eligible
for the requested quantity, `get_available_account` returns an eligible
record with minimal remaining capacity (`maxUser - currentUser`), and on a
tie the returned record is the one with the smallest original index. -/
theorem allocate_selects_tightest_fit {store : Store} {pid : String}
    {q t : Int} (u : Int) {product : Product} {j0 : Nat} {b0 : Account}
    (hp : Store.get store pid = some product)
    (hg0 : product.accounts.get? j0 = some (some b0))
    (he0 : t ≤ b0.expired_at ∧ q ≤ remaining b0) :
    ∃ idx account,
      (get_available_account store pid q t u none).1 =
        (some account, none) ∧
      product.accounts.get? idx = some (some account) ∧
      ∀ j b, product.accounts.get? j = some (some b) →
        t ≤ b.expired_at → q ≤ remaining b →
        remaining account ≤ remaining b ∧
          (remaining b = remaining account → idx ≤ j) := by
  have hmem0 : (0 + j0, b0) ∈ availableAccounts product.accounts t q :=
    collectAvailable_mem 0 j0 hg0 ((eligibleB_iff t q b0).mpr he0)
  cases hx : firstMin (availableAccounts product.accounts t q) with
  | none =>
    exfalso
    cases hl : availableAccounts product.accounts t q with
    | nil => rw [hl] at hmem0; simp at hmem0
    | cons z zs => rw [hl] at hx; exact firstMin_cons_ne_none z zs hx
  | some x =>
    obtain ⟨idx, account⟩ := x
    refine ⟨idx, account, ?_, ?_, ?_⟩
    · rw [get_available_account_chosen hp hx none]
    · obtain ⟨i, hg, hi, _⟩ := mem_collectAvailable (firstMin_mem hx)
      simpa [show idx = i by omega] using hg
    · intro j b hg he1 he2
      have hmem : (0 + j, b) ∈ availableAccounts product.accounts t q :=
        collectAvailable_mem 0 j hg ((eligibleB_iff t q b).mpr ⟨he1, he2⟩)
      constructor
      · exact firstMin_min hx _ hmem
      · intro hrem
        have := firstMin_earliest
          (collectAvailable_pairwise t q 0 product.accounts) hx _ hmem hrem
        omega

/-- C2 witness: in `sampleStore`, product `p1` holds an eligible record
(`accLoose` at index 0) for quantity 1 at time 50, so the theorem applies;
the allocator picks the tighter record. -/
theorem allocate_selects_tightest_fit_witness :
    ∃ idx account,
      (get_available_account sampleStore "p1" 1 50 777 none).1 =
        (some account, none) ∧
      (Product.mk [some accLoose, none, some accTight]).accounts.get? idx =
        some (some account) ∧
      ∀ j b,
        (Product.mk [some accLoose, none, some accTight]).accounts.get? j =
          some (some b) →
        (50 : Int) ≤ b.expired_at → (1 : Int) ≤ remaining b →
        remaining account ≤ remaining b ∧
          (remaining b = remaining account → idx ≤ j) :=
  @allocate_selects_tightest_fit sampleStore "p1" 1 50 777
    ⟨[some accLoose, none, some accTight]⟩ 0 accLoose
    (by decide) (by decide) (by decide)

/-- C3: `get_available_account` never returns an ineligible record (whatever
it returns satisfies `expired_at ≥ now` and `remaining ≥ quantity` and is a
record of the product read from the store); when the product exists but no
record is eligible it returns no record and the no-availability error; when
the product is absent it returns no record and the not-found error. -/
theorem allocate_never_returns_ineligible (store : Store) (pid : String)
    (q t u : Int) (uo : Option String) :
    (∀ account,
        ((get_available_account store pid q t u uo).1).1 = some account →
        (t ≤ account.expired_at ∧ q ≤ remaining account) ∧
        ∃ product idx, Store.get store pid = some product ∧
          product.accounts.get? idx = some (some account)) ∧
    (∀ product, Store.get store pid = some product →
        (∀ i b, product.accounts.get? i = some (some b) →
          ¬(t ≤ b.expired_at ∧ q ≤ remaining b)) →
        (get_available_account store pid q t u uo).1 =
          (none, some "No available accounts")) ∧
    (Store.get store pid = none →
        (get_available_account store pid q t u uo).1 =
          (none, some "Product not found")) := by
  refine ⟨?_, ?_, ?_⟩
  · intro account hacc
    rw [get_available_account] at hacc
    cases hp : Store.get store pid with
    | none => rw [hp] at hacc; simp at hacc
    | some product =>
      rw [hp] at hacc
      simp only at hacc
      cases hs : sortByRem (availableAccounts product.accounts t q) with
      | nil => rw [hs] at hacc; simp at hacc
      | cons y ys =>
        rw [hs] at hacc
        cases uo with
        | some msg => simp at hacc
        | none =>
          simp at hacc
          have hfm : firstMin (availableAccounts product.accounts t q) =
              some y := by
            rw [← head?_sortByRem, hs, List.head?_cons]
          obtain ⟨i, hg, _, he⟩ := mem_collectAvailable (firstMin_mem hfm)
          rw [hacc] at hg he
          exact ⟨(eligibleB_iff t q account).mp he,
            product, i, rfl, hg⟩
  · intro product hp hno
    have hb : ∀ i b, product.accounts.get? i = some (some b) →
        eligibleB t q b = false := by
      intro i b hg
      cases hbb : eligibleB t q b
      · rfl
      · exact absurd ((eligibleB_iff t q b).mp hbb) (hno i b hg)
    rw [get_available_account_no_avail q t u uo hp hb]
  · intro hp
    rw [get_available_account_not_found q t u uo hp]

/-- C3 witness: product `p2` of `sampleStore` exists but its only record is
expired at read time 50, so the theorem's no-availability branch applies. -/
theorem allocate_never_returns_ineligible_witness :
    (get_available_account sampleStore "p2" 1 50 777 none).1 =
      (none, some "No available accounts") :=
  (allocate_never_returns_ineligible sampleStore "p2" 1 50 777 none).2.1
    ⟨[some accExpired]⟩ (by decide)
    (by
      intro i b hg
      cases i with
      | zero =>
        have hb : some accExpired = some b := by simpa using hg
        have hb' : accExpired = b := by injection hb
        subst hb'
        decide
      | succ j => simp at hg)

/-- C4: when a record was chosen but the reservation update fails, the
allocator returns no record and the reservation-failure error, with the
store untouched; when the update succeeds, the returned record is the
pre-update snapshot — a record of the product as read before the
`currentUser` increment. -/
theorem allocate_reservation_failed_no_record {store : Store}
    {pid : String} {q t u : Int} {product : Product}
    (hp : Store.get store pid = some product)
    (hne : availableAccounts product.accounts t q ≠ []) :
    (∀ msg, get_available_account store pid q t u (some msg) =
        ((none, some ("Account update failed: " ++ msg)), store)) ∧
    (∀ account store',
        get_available_account store pid q t u none =
          ((some account, none), store') →
        ∃ idx, product.accounts.get? idx = some (some account) ∧
          store' = Store.reserve store pid idx (account.currentUser + q) u) := by
  constructor
  · intro msg
    cases hx : firstMin (availableAccounts product.accounts t q) with
    | none =>
      exfalso
      cases hl : availableAccounts product.accounts t q with
      | nil => exact hne hl
      | cons z zs => rw [hl] at hx; exact firstMin_cons_ne_none z zs hx
    | some x =>
      obtain ⟨idx, account⟩ := x
      rw [get_available_account_chosen hp hx (some msg)]
  · intro account store' h
    obtain ⟨product', idx, hp', hfm, _, hst⟩ :=
      get_available_account_success_inv h
    rw [hp] at hp'
    have hpp : product = product' := by injection hp'
    subst hpp
    obtain ⟨i, hg, hi, _⟩ := mem_collectAvailable (firstMin_mem hfm)
    have hii : i = idx := by omega
    subst hii
    exact ⟨i, hg, hst⟩

/-- C4 witness: with `sampleStore` and product `p1`, a failing update with
message "boom" yields the reservation-failure error and no record, with the
store unchanged. -/
theorem allocate_reservation_failed_no_record_witness :
    get_available_account sampleStore "p1" 1 50 777 (some "boom") =
      ((none, some "Account update failed: boom"), sampleStore) :=
  (@allocate_reservation_failed_no_record sampleStore "p1" 1 50 777
    ⟨[some accLoose, none, some accTight]⟩
    (by decide) (by decide)).1 "boom"

/-- C8: after a successful allocation the chosen record's `currentUser`
counter is exactly `quantity` higher and its `lastUsed` is stamped with the
update time, all its other fields are unchanged, every other record of the
product is unchanged, and every other product of the store is unchanged. -/
theorem allocate_frame {store store' : Store} {pid : String} {q t u : Int}
    {uo : Option String} {account : Account} {product : Product}
    (hp : Store.get store pid = some product)
    (h : get_available_account store pid q t u uo =
      ((some account, none), store')) :
    ∃ idx newProduct,
      product.accounts.get? idx = some (some account) ∧
      Store.get store' pid = some newProduct ∧
      newProduct.accounts.get? idx =
        some (some { account with currentUser := account.currentUser + q,
                                  lastUsed := u }) ∧
      (∀ i, i ≠ idx → newProduct.accounts.get? i = product.accounts.get? i) ∧
      (∀ pid', pid' ≠ pid → Store.get store' pid' = Store.get store pid') := by
  obtain ⟨product', idx, hp', hfm, _, hst⟩ :=
    get_available_account_success_inv h
  rw [hp] at hp'
  have hpp : product = product' := by injection hp'
  subst hpp
  obtain ⟨i, hg, hi, _⟩ := mem_collectAvailable (firstMin_mem hfm)
  have hii : i = idx := by omega
  subst hii
  subst hst
  refine ⟨i, ⟨setAccountFields product.accounts i (account.currentUser + q) u⟩,
    hg, ?_, ?_, ?_, ?_⟩
  · rw [Store.get_reserve_same, hp]
    rfl
  · rw [setAccountFields_get_same, hg]
    rfl
  · intro j hj
    exact setAccountFields_get_other product.accounts i j _ _ hj
  · intro pid' hpid'
    exact Store.get_reserve_other store pid pid' i _ _ hpid'

/-- C8 witness: allocating one lease of `p1` from `sampleStore` increments
`accTight` (index 2) from 3 to 4 leases, stamps `lastUsed := 777`, and
leaves index 0 and product `p2` untouched. -/
theorem allocate_frame_witness :
    ∃ idx newProduct,
      (Product.mk [some accLoose, none, some accTight]).accounts.get? idx =
        some (some accTight) ∧
      Store.get sampleStoreAfter "p1" = some newProduct ∧
      newProduct.accounts.get? idx =
        some (some { accTight with currentUser := accTight.currentUser + 1,
                                   lastUsed := 777 }) ∧
      (∀ i, i ≠ idx → newProduct.accounts.get? i =
        (Product.mk [some accLoose, none, some accTight]).accounts.get? i) ∧
      (∀ pid', pid' ≠ "p1" →
        Store.get sampleStoreAfter pid' = Store.get sampleStore pid') :=
  @allocate_frame sampleStore sampleStoreAfter "p1" 1 50 777 none accTight
    ⟨[some accLoose, none, some accTight]⟩ (by decide) (by decide)

/-! ## Claim theorems for the manual delivery conversation -/

theorem mapGet_mapSet_same (m : ManualMap) (k : String) (v : ProcState) :
    mapGet (mapSet m k v) k = some v := by
  induction m with
  | nil => simp [mapSet, mapGet, List.lookup]
  | cons e rest ih =>
    obtain ⟨k', w⟩ := e
    by_cases hk : k' = k
    · subst hk
      simp [mapSet, mapGet, List.lookup]
    · have hb : (k == k') = false := by simp; exact fun hh => hk hh.symm
      simp only [mapSet, if_neg hk, mapGet, List.lookup, hb]
      exact ih

/-- C5: in manual mode 2, the reply is split on commas and every element
trimmed; when every trimmed element is non-empty the full list is submitted
as the `DELIVER` payload and the conversation entry is deleted, and when any
element is empty nothing is submitted and the map is unchanged. -/
theorem mode2_reply_all_or_nothing (orderInfo : String → Option OrderInfo)
    (reMatch : String → String → Bool) (oid : String) (inputs : List String)
    (rest : ManualMap) (text : String) (hoid : oid ≠ "") :
    ((∀ v ∈ (pySplitComma (pyStrip text)).map pyStrip, v ≠ "") →
      handle_manual_input orderInfo reMatch
          ((oid, ProcState.mk 2 inputs) :: rest) text =
        (rest, .submitted oid
          (((pySplitComma (pyStrip text)).map pyStrip).map DeliveryItem.str))) ∧
    ((∃ v ∈ (pySplitComma (pyStrip text)).map pyStrip, v = "") →
      handle_manual_input orderInfo reMatch
          ((oid, ProcState.mk 2 inputs) :: rest) text =
        ((oid, ProcState.mk 2 inputs) :: rest, .rejected)) := by
  constructor
  · intro hall
    have hv : (((pySplitComma (pyStrip text)).map pyStrip).all
        (fun v => validate_input reMatch v none)) = true := by
      rw [List.all_eq_true]
      intro v hvmem
      simp [validate_input, hall v hvmem]
    simp [handle_manual_input, hoid, hv]
  · rintro ⟨v, hvmem, hv⟩
    have hv' : (((pySplitComma (pyStrip text)).map pyStrip).all
        (fun v => validate_input reMatch v none)) = false := by
      cases hres : ((pySplitComma (pyStrip text)).map pyStrip).all
          (fun v => validate_input reMatch v none) with
      | false => rfl
      | true =>
        exfalso
        rw [List.all_eq_true] at hres
        have := hres v hvmem
        rw [hv] at this
        simp [validate_input] at this
    simp [handle_manual_input, hoid, hv']

/-- C5 witness: the reply "a, b ,c" on a mode-2 conversation submits
`["a", "b", "c"]` and deletes the conversation entry. -/
theorem mode2_reply_all_or_nothing_witness :
    handle_manual_input sampleOrderInfo sampleMatch
      [("ord1", ProcState.mk 2 [])] "a, b ,c" =
      ([], ManualEffect.submitted "ord1"
        [DeliveryItem.str "a", DeliveryItem.str "b", DeliveryItem.str "c"]) :=
  (mode2_reply_all_or_nothing sampleOrderInfo sampleMatch "ord1" [] []
    "a, b ,c" (by decide)).1 (by decide)

/-- C6: in manual mode 3 the reply is validated against the schema field at
the index equal to the number of answers collected so far; an empty reply or
a pattern mismatch rejects it leaving map and collected inputs unchanged; an
accepted reply accumulates, prompting the next field in schema order, and
when the accepted count reaches the schema length the field names are zipped
with the collected values and submitted as a single-element list, deleting
the conversation entry. -/
theorem mode3_field_flow (orderInfo : String → Option OrderInfo)
    (reMatch : String → String → Bool) (oid : String) (inputs : List String)
    (rest : ManualMap) (text : String) (info : OrderInfo) (field : Field)
    (hoid : oid ≠ "")
    (hinfo : orderInfo oid = some info)
    (hfield : info.delivery_info_field.get? inputs.length = some field) :
    let m := (oid, ProcState.mk 3 inputs) :: rest
    let v := pyStrip text
    let fields := info.delivery_info_field
    (v = "" →
      handle_manual_input orderInfo reMatch m text = (m, .rejected)) ∧
    (∀ p, field.validation_pattern = some p → p ≠ "" → reMatch p v = false →
      handle_manual_input orderInfo reMatch m text = (m, .rejected)) ∧
    (v ≠ "" →
      (∀ p, field.validation_pattern = some p → p ≠ "" → reMatch p v = true) →
      (inputs.length + 1 = fields.length →
        handle_manual_input orderInfo reMatch m text =
          (rest, .submitted oid
            [.obj (List.zip (fields.map Field.field_name) (inputs ++ [v]))])) ∧
      (inputs.length + 1 ≠ fields.length →
        ∃ next_field, fields.get? (inputs.length + 1) = some next_field ∧
          handle_manual_input orderInfo reMatch m text =
            ((oid, ProcState.mk 3 (inputs ++ [v])) :: rest,
              .promptNext next_field.field_name))) := by
  intro m v fields
  have hfield' : info.delivery_info_field[inputs.length]? = some field := by
    simpa using hfield
  refine ⟨?_, ?_, ?_⟩
  · intro hempty
    have hval : validate_input reMatch v field.validation_pattern = false := by
      simp [validate_input, hempty]
    simp [handle_manual_input, hoid, hinfo, hfield', hval, m]
  · intro p hp hpne hmatch
    have hval : validate_input reMatch v field.validation_pattern = false := by
      rw [validate_input.eq_def, hp]
      by_cases hv0 : v = ""
      · rw [if_pos hv0]
      · rw [if_neg hv0]
        show (if p = "" then true else reMatch p v) = false
        rw [if_neg hpne]
        exact hmatch
    simp [handle_manual_input, hoid, hinfo, hfield', hval, m]
  · intro hne hpat
    have hval : validate_input reMatch v field.validation_pattern = true := by
      rw [validate_input.eq_def, if_neg hne]
      cases hp : field.validation_pattern with
      | none => rfl
      | some p =>
        show (if p = "" then true else reMatch p v) = true
        by_cases hpe : p = ""
        · rw [if_pos hpe]
        · rw [if_neg hpe]
          exact hpat p hp hpe
    constructor
    · intro hlen
      simp [handle_manual_input, hoid, hinfo, hfield', hval, hlen, m, fields]
    · intro hlen
      have hlt : inputs.length < fields.length := by
        by_contra hge
        have hnone : fields.get? inputs.length = none :=
          List.get?_eq_none.mpr (by omega)
        rw [hnone] at hfield
        exact Option.noConfusion hfield
      have hlt' : inputs.length + 1 < fields.length := by omega
      cases hnf : fields.get? (inputs.length + 1) with
      | none =>
        exfalso
        rw [List.get?_eq_none] at hnf
        omega
      | some next_field =>
        refine ⟨next_field, rfl, ?_⟩
        have hnf' : info.delivery_info_field[inputs.length + 1]? =
            some next_field := by simpa using hnf
        simp [handle_manual_input, hoid, hinfo, hfield', hval, hlen, hnf',
          m, fields]

/-- C6 witness: continuing the spec's example schema at one collected answer,
the reply "1234" matches the four-digit pattern, completes the schema, and
submits the zipped structure as a single-element payload. -/
theorem mode3_field_flow_witness :
    handle_manual_input sampleOrderInfo sampleMatch
      [("ord1", ProcState.mk 3 ["x@y.com"])] "1234" =
      ([], ManualEffect.submitted "ord1"
        [DeliveryItem.obj [("email", "x@y.com"), ("code", "1234")]]) :=
  ((mode3_field_flow sampleOrderInfo sampleMatch "ord1" ["x@y.com"] [] "1234"
      ⟨sampleFields⟩ ⟨"code", some "^[0-9][0-9][0-9][0-9]$"⟩
      (by decide) (by decide) (by decide)).2.2
    (by decide)
    (fun p hp _ => by
      have hpe : "^[0-9][0-9][0-9][0-9]$" = p := by injection hp
      subst hpe
      decide)).1 (by decide)

/-- C7 counterexample: with a single active conversation keyed by the empty
order id, the handler ignores the reply and changes nothing, although the
claim says the reply is applied to the first order with a non-empty
conversation state regardless of the order. -/
theorem route_reply_counterexample :
    handle_manual_input sampleOrderInfo sampleMatch
      [("", ProcState.mk 1 [])] "foo" =
      ([("", ProcState.mk 1 [])], ManualEffect.ignored) ∧
    ∀ payload, handle_manual_input sampleOrderInfo sampleMatch
      [("", ProcState.mk 1 [])] "foo" ≠
      ([], ManualEffect.submitted "" payload) := by
  refine ⟨by decide, ?_⟩
  intro payload h
  rw [show handle_manual_input sampleOrderInfo sampleMatch
      [("", ProcState.mk 1 [])] "foo" =
      ([("", ProcState.mk 1 [])], ManualEffect.ignored) from by decide] at h
  simp at h

/-- C7 (amended): an inbound reply is applied to the head entry of the
conversation map — the first order with a non-empty state — provided that
order's id is itself non-empty: only the head entry can change or be
deleted, and any triggered submission names the head's order id; a head
entry with an empty order id, like an empty map, leaves everything
unchanged with no submission. -/
theorem route_reply_first_entry (orderInfo : String → Option OrderInfo)
    (reMatch : String → String → Bool) (m : ManualMap) (text : String) :
    (m = [] → handle_manual_input orderInfo reMatch m text = ([], .ignored)) ∧
    (∀ oid st rest, m = (oid, st) :: rest →
      (oid = "" →
        handle_manual_input orderInfo reMatch m text = (m, .ignored)) ∧
      (∀ o p, (handle_manual_input orderInfo reMatch m text).2 =
          .submitted o p → o = oid) ∧
      ((handle_manual_input orderInfo reMatch m text).1 = rest ∨
        (handle_manual_input orderInfo reMatch m text).1 = m ∨
        ∃ st', (handle_manual_input orderInfo reMatch m text).1 =
          (oid, st') :: rest)) := by
  constructor
  · intro h0
    subst h0
    rfl
  · intro oid st rest hm
    subst hm
    by_cases hoid : oid = ""
    · subst hoid
      refine ⟨fun _ => by simp [handle_manual_input], ?_, ?_⟩
      · intro o p h
        simp [handle_manual_input] at h
      · right; left
        simp [handle_manual_input]
    · have H : ∀ r, handle_manual_input orderInfo reMatch
          ((oid, st) :: rest) text = r →
          (∀ o p, r.2 = .submitted o p → o = oid) ∧
          (r.1 = rest ∨ r.1 = (oid, st) :: rest ∨
            ∃ st', r.1 = (oid, st') :: rest) := by
        intro r hr
        simp only [handle_manual_input, if_neg hoid] at hr
        iterate 8 (all_goals (try split at hr))
        all_goals (rw [← hr]; constructor)
        all_goals (try (intro o p h; simp at h))
        all_goals (first | (exact h.1.symm) | simp)
      obtain ⟨h1, h2⟩ := H _ rfl
      exact ⟨fun h => absurd h hoid, h1, h2⟩

/-- C7 witness for the amended statement: an empty conversation map ignores
the reply. -/
theorem route_reply_first_entry_witness :
    handle_manual_input sampleOrderInfo sampleMatch [] "hello" =
      ([], ManualEffect.ignored) :=
  (route_reply_first_entry sampleOrderInfo sampleMatch [] "hello").1 rfl

/-- C10: selecting mode 3 for an order with an empty delivery-field schema
creates the conversation entry before the schema check and keeps it after
reporting the empty schema; the next reply routed to that conversation hits
the out-of-bounds lookup of the first schema field (`indexError`), rather
than being validated or re-prompted, and the entry persists. -/
theorem mode3_empty_schema_dangling_state (orderInfo : String → Option OrderInfo)
    (reMatch : String → String → Bool) (m : ManualMap) (oid : String)
    (info : OrderInfo) (h1 : orderInfo oid = some info)
    (h2 : info.delivery_info_field = []) :
    handle_delivery_type orderInfo m oid 3 =
      (mapSet m oid ⟨3, []⟩, .noFieldsDefined) ∧
    mapGet (mapSet m oid ⟨3, []⟩) oid = some ⟨3, []⟩ ∧
    (∀ text rest, mapSet m oid ⟨3, []⟩ = (oid, ProcState.mk 3 []) :: rest →
      oid ≠ "" →
      handle_manual_input orderInfo reMatch (mapSet m oid ⟨3, []⟩) text =
        (mapSet m oid ⟨3, []⟩, .indexError)) := by
  refine ⟨?_, mapGet_mapSet_same m oid ⟨3, []⟩, ?_⟩
  · simp [handle_delivery_type, h1, h2]
  · intro text rest hm hoid
    rw [hm]
    simp [handle_manual_input, hoid, h1, h2]

/-- C10 witness: order "ord2" has an empty schema; after selecting mode 3
the entry exists, and the next reply yields the out-of-bounds lookup with
the entry intact. -/
theorem mode3_empty_schema_dangling_state_witness :
    handle_delivery_type sampleOrderInfo [] "ord2" 3 =
      ([("ord2", ProcState.mk 3 [])], DeliveryTypeEffect.noFieldsDefined) ∧
    handle_manual_input sampleOrderInfo sampleMatch
      [("ord2", ProcState.mk 3 [])] "anything" =
      ([("ord2", ProcState.mk 3 [])], ManualEffect.indexError) :=
  ⟨(mode3_empty_schema_dangling_state sampleOrderInfo sampleMatch []
      "ord2" ⟨[]⟩ (by decide) rfl).1,
   (mode3_empty_schema_dangling_state sampleOrderInfo sampleMatch []
      "ord2" ⟨[]⟩ (by decide) rfl).2.2 "anything" [] (by decide) (by decide)⟩

/-! ## Claim theorems for the fulfillment driver -/

theorem OrderStore.get_set_same (s : OrderStore) (k : String)
    (v : OrderRecord) : OrderStore.get (OrderStore.set s k v) k = some v := by
  induction s with
  | nil => simp [OrderStore.set, OrderStore.get, List.lookup]
  | cons e rest ih =>
    obtain ⟨k', w⟩ := e
    by_cases hk : k' = k
    · subst hk
      simp [OrderStore.set, OrderStore.get, List.lookup]
    · have hb : (k == k') = false := by simp; exact fun hh => hk hh.symm
      simp only [OrderStore.set, if_neg hk, OrderStore.get, List.lookup, hb]
      exact ih

theorem derive_delivery_payload_truthy (tm : List String) (a : Account) :
    listTruthy (some (derive_delivery_payload tm a)) = true := by
  rw [derive_delivery_payload]
  split <;> rfl

/-- C1: for every pending order (status `REQUIRE_PROCESS`, non-falsy order
and product ids) whose allocation succeeds, the driver submits the payload
derived from the allocated record through the order-action endpoint with
action `DELIVER`, and when the endpoint reports success it persists status
`DELIVER`, the processed timestamp and the delivery payload under the order
id in the order store. The success branch of the driver is the
spec-modelled `process_pending_order` continuation; `process_order` is the
source function. -/
theorem driver_success_delivers_and_persists
    {store store' : Store} {orders_ref : OrderStore}
    {token_markers : List String} {resp : Except String ActionResponse}
    {t u now_ms : Int} {uo : Option String} {order : OrderData}
    {oid pid : String} {account : Account}
    (hs : order.status = "REQUIRE_PROCESS")
    (hid : order.order_id = some oid) (hoid : oid ≠ "")
    (hpid : order.product_id = some pid) (hpid2 : pid ≠ "")
    (halloc : get_available_account store pid order.quantity t u uo =
      ((some account, none), store')) :
    let payload := derive_delivery_payload token_markers account
    ∃ ok msg orders_ref',
      process_pending_order store orders_ref token_markers resp t u now_ms uo
          order =
        ((store', orders_ref'),
          .delivered ⟨oid, "DELIVER", some payload⟩ ok msg) ∧
      ∀ data, resp = .ok data → data.success = true →
        ok = true ∧
        OrderStore.get orders_ref' oid =
          some ⟨"DELIVER", now_ms, some payload⟩ := by
  intro payload
  have hpay := derive_delivery_payload_truthy token_markers account
  cases resp with
  | error e =>
    refine ⟨false, e, orders_ref, ?_, ?_⟩
    · simp [process_pending_order, hs, hid, hoid, hpid, hpid2, halloc,
        process_order, hpay, payload]
    · intro data hd
      exact absurd hd (by simp)
  | ok data =>
    by_cases hsuc : data.success = true
    · refine ⟨true, "Success",
        OrderStore.set orders_ref oid ⟨"DELIVER", now_ms, some payload⟩,
        ?_, ?_⟩
      · simp [process_pending_order, hs, hid, hoid, hpid, hpid2, halloc,
          process_order, hpay, hsuc, payload]
      · intro data' hd hds
        exact ⟨rfl, OrderStore.get_set_same orders_ref oid _⟩
    · have hsf : data.success = false := by
        rwa [Bool.not_eq_true] at hsuc
      refine ⟨false, data.message.getD "Failed", orders_ref, ?_, ?_⟩
      · simp [process_pending_order, hs, hid, hoid, hpid, hpid2, halloc,
          process_order, hpay, hsf, payload]
      · intro data' hd hds
        have hdd : data = data' := by injection hd
        subst hdd
        exact absurd hds hsuc

/-- C1 witness: a concrete pending order against `sampleStore` allocates
`accTight`, whose identifier carries no token marker, so both identifier and
secret are delivered; the successful submission persists the record. -/
theorem driver_success_delivers_and_persists_witness :
    ∃ ok msg orders_ref',
      process_pending_order sampleStore [] ["invite"]
          (Except.ok ⟨true, none⟩) 50 777 888 none sampleOrder =
        ((sampleStoreAfter, orders_ref'),
          .delivered
            ⟨"ord1", "DELIVER",
              some [DeliveryItem.str "tight@x", DeliveryItem.str "pt"]⟩
            ok msg) ∧
      ∀ data, (Except.ok ⟨true, none⟩ : Except String ActionResponse) =
          .ok data → data.success = true →
        ok = true ∧
        OrderStore.get orders_ref' "ord1" =
          some ⟨"DELIVER", 888,
            some [DeliveryItem.str "tight@x", DeliveryItem.str "pt"]⟩ :=
  @driver_success_delivers_and_persists sampleStore sampleStoreAfter []
    ["invite"] (Except.ok ⟨true, none⟩) 50 777 888 none sampleOrder
    "ord1" "p1" accTight
    (by decide) (by decide) (by decide) (by decide) (by decide) (by decide)

/-! ## Claim theorem for the signed request builder -/

/-- C9: `generate_token` is deterministic — identical payload and identical
nonce give the identical token — and the token is the three-part compact
form: base64url of the header JSON without padding, a dot, base64url of the
payload JSON without padding, a dot, and base64url (without padding) of the
HMAC-SHA256 digest, keyed by the shared secret, of the first two parts. -/
theorem generate_token_deterministic_three_part
    (hmacSha256 : List Nat → List Nat → List Nat) (dumps : Json → String)
    (api_key api_secret : String) (p1 p2 : Json) (n1 n2 : String)
    (hp : p1 = p2) (hn : n1 = n2) :
    generate_token hmacSha256 dumps api_key api_secret p1 n1 =
      generate_token hmacSha256 dumps api_key api_secret p2 n2 ∧
    generate_token hmacSha256 dumps api_key api_secret p1 n1 =
      (rstripEq (urlsafe_b64encode (utf8Bytes (dumps (tokenHeader api_key n1))))
          ++ "." ++
          rstripEq (urlsafe_b64encode (utf8Bytes (dumps p1))))
        ++ "." ++
        rstripEq (urlsafe_b64encode (hmacSha256 (utf8Bytes api_secret)
          (utf8Bytes
            (rstripEq (urlsafe_b64encode
                (utf8Bytes (dumps (tokenHeader api_key n1))))
              ++ "." ++
              rstripEq (urlsafe_b64encode (utf8Bytes (dumps p1))))))) := by
  subst hp
  subst hn
  exact ⟨rfl, rfl⟩

/-- C9 witness: at concrete stand-ins for the hash and serializer, two calls
with the same payload and nonce agree. -/
theorem generate_token_deterministic_three_part_witness :
    generate_token sampleHmac sampleDumps "k" "s" (Json.str "x") "99" =
      generate_token sampleHmac sampleDumps "k" "s" (Json.str "x") "99" :=
  (generate_token_deterministic_three_part sampleHmac sampleDumps "k" "s"
    (Json.str "x") (Json.str "x") "99" "99" rfl rfl).1

end Itemku
